import Mathlib

/-!
Verification development for the `oxphys_numerics` expression library.

The library builds expression trees over binary64 values, interprets them with a
tree-walk evaluator, and lowers them to native code through a JIT code generator
in four shapes (1-D, 2-D, 3-D scalar parameters, and N-D pointer-plus-length).
This file gives a shallow embedding of the expression data model and of the
observable semantics of the evaluator, the batch evaluator, and the four JIT
lowering entry points, and proves or refutes the specified properties.

Modelling conventions, justified definition by definition below:

* Binary64 values are modelled by `F64`: NaN, signed infinities, the negative
  zero, and finite values carried as exact rationals (`F64.fin 0` is `+0.0`).
  The arithmetic operations on `F64` implement the IEEE-754 rules for special
  operands exactly; on finite operands they compute the exact rational result.
  Binary64 agrees with the exact result whenever that result is representable,
  which holds for every concrete arithmetic fact used by a theorem in this
  file (small-integer sums, quotients with small power-of-two denominators,
  and the special-operand cases, which IEEE-754 fixes exactly).
* The transcendental routines (`sqrt`, `sin`, `cos`, `exp`, `ln`, `pow`,
  `log`) are inexact library calls; they are kept abstract as a bundle of
  function parameters (`TransFns`).  The evaluator and the JIT lowering
  receive the same bundle, reflecting that both ultimately call IEEE-754
  binary64 routines of the host.
* A Rust panic (out-of-range `Vec` indexing in `evaluate`, the `panic!` arms of
  `build_jit_2d`/`build_jit_3d`, and the `unimplemented!()` arms of the
  lowering visitors) is modelled as `none` of an `Option`: the operation
  produces no value and no error value.  The `Ok` results the source actually
  constructs are modelled as `some`; the declared error type of the compile
  entry points (`ExprParsingError`) is never constructed anywhere in the
  source, so the compile outcome type carries no error alternative.
-/

namespace OxphysNumerics

/-- Model of a binary64 (`f64`) value: NaN (payloads are not distinguished),
infinities with a sign, the negative zero, and finite values as exact
rationals, where `F64.fin 0` is the positive zero `+0.0`. -/
inductive F64 : Type where
  | nan : F64
  | inf (negative : Bool) : F64
  | negZero : F64
  | fin (q : ℚ) : F64
  deriving DecidableEq

/-- Whether the value is finite (a zero or a finite rational). -/
def F64.isFinite : F64 → Bool
  | .nan => false
  | .inf _ => false
  | .negZero => true
  | .fin _ => true

/-- Whether the value is an infinity. -/
def F64.isInf : F64 → Bool
  | .inf _ => true
  | _ => false

/-- Whether the value is a zero of either sign. -/
def F64.isZero : F64 → Bool
  | .negZero => true
  | .fin q => q == 0
  | _ => false

/-- The magnitude of a finite value as a rational (0 for non-finite values,
used only under an `isFinite` guard). -/
def F64.mag : F64 → ℚ
  | .fin q => |q|
  | _ => 0

/-- IEEE-754 negation: flips the sign bit.  NaN stays NaN (payloads are not
modelled), `∓∞` and `∓0` swap signs, finite values negate exactly. -/
def F64.neg : F64 → F64
  | .nan => .nan
  | .inf b => .inf (!b)
  | .negZero => .fin 0
  | .fin q => if q = 0 then .negZero else .fin (-q)

/-- IEEE-754 addition (round-to-nearest-even).  NaN propagates; opposite
infinities give NaN; an infinity absorbs finite addends; `-0 + -0 = -0` and
otherwise a zero addend is the identity (a sum of exact opposites is `+0` in
round-to-nearest); finite sums are computed exactly. -/
def F64.add : F64 → F64 → F64
  | .nan, _ => .nan
  | _, .nan => .nan
  | .inf b, .inf c => if b = c then .inf b else .nan
  | .inf b, _ => .inf b
  | _, .inf c => .inf c
  | .negZero, .negZero => .negZero
  | .negZero, .fin q => .fin q
  | .fin q, .negZero => .fin q
  | .fin q, .fin r => .fin (q + r)

/-- IEEE-754 multiplication.  NaN propagates; `∞ × 0` is NaN; signs multiply
(xor); products with a zero factor are zeroes of the product sign; finite
products are computed exactly. -/
def F64.mul : F64 → F64 → F64
  | .nan, _ => .nan
  | _, .nan => .nan
  | .inf b, .inf c => .inf (xor b c)
  | .inf _, .negZero => .nan
  | .negZero, .inf _ => .nan
  | .inf b, .fin q => if q = 0 then .nan else .inf (xor b (decide (q < 0)))
  | .fin q, .inf c => if q = 0 then .nan else .inf (xor (decide (q < 0)) c)
  | .negZero, .negZero => .fin 0
  | .negZero, .fin q => if q < 0 then .fin 0 else .negZero
  | .fin q, .negZero => if q < 0 then .fin 0 else .negZero
  | .fin q, .fin r =>
      if q * r = 0 then
        (if xor (decide (q < 0)) (decide (r < 0)) then .negZero else .fin 0)
      else .fin (q * r)

/-- IEEE-754 division.  NaN propagates; `∞ / ∞` and `0 / 0` are NaN; a nonzero
finite or infinite numerator over a zero gives the signed infinity (sign is
the xor of the operand signs); a finite numerator over an infinity gives the
signed zero; nonzero finite quotients are computed exactly. -/
def F64.div : F64 → F64 → F64
  | .nan, _ => .nan
  | _, .nan => .nan
  | .inf _, .inf _ => .nan
  | .inf b, .negZero => .inf (!b)
  | .inf b, .fin q => .inf (xor b (decide (q < 0)))
  | .negZero, .inf c => if c then .fin 0 else .negZero
  | .fin q, .inf c => if xor (decide (q < 0)) c then .negZero else .fin 0
  | .negZero, .negZero => .nan
  | .negZero, .fin q =>
      if q = 0 then .nan else if q < 0 then .fin 0 else .negZero
  | .fin q, .negZero => if q = 0 then .nan else .inf (!(decide (q < 0)))
  | .fin q, .fin r =>
      if r = 0 then (if q = 0 then .nan else .inf (decide (q < 0)))
      else if q = 0 then
        (if xor (decide (q < 0)) (decide (r < 0)) then .negZero else .fin 0)
      else .fin (q / r)

/-- The transcendental binary64 routines used by the evaluator and bound by
the JIT: kept abstract because their results are inexact (correctly-rounded
or faithfully-rounded library values).  The evaluator and the JIT lowering
are given the same bundle: the interpreted `f64::sqrt` and the lowered
`sqrt` IR instruction are both IEEE-754 binary64 square root, and the
remaining entries would be host `libm` calls on both paths. -/
structure TransFns : Type where
  sqrt : F64 → F64
  sin : F64 → F64
  cos : F64 → F64
  exp : F64 → F64
  ln : F64 → F64
  pow : F64 → F64 → F64
  log : F64 → F64 → F64

/-- A bundle with every transcendental left at the placeholder value NaN;
used to instantiate theorems whose computations never reach a
transcendental call. -/
def trivialTransFns : TransFns :=
  ⟨fun _ => F64.nan, fun _ => F64.nan, fun _ => F64.nan, fun _ => F64.nan,
   fun _ => F64.nan, fun _ _ => F64.nan, fun _ _ => F64.nan⟩

/-- The natural logarithm at the arguments where the IEEE-754 / C standard
fixes the binary64 result exactly: `ln NaN = NaN`, `ln +∞ = +∞`,
`ln -∞ = NaN`, `ln (±0) = -∞`, `ln x = NaN` for `x < 0`, and `ln 1 = +0`.
At every other argument the binary64 result is a rounded transcendental;
those arguments are outside the scope of this development and are mapped to
the placeholder value NaN — no theorem below evaluates `ieeeLn` there. -/
def ieeeLn : F64 → F64
  | .nan => .nan
  | .inf false => .inf false
  | .inf true => .nan
  | .negZero => .inf true
  | .fin q =>
      if q < 0 then .nan
      else if q = 0 then .inf true
      else if q = 1 then .fin 0
      else .nan

/-- A bundle whose `ln` is `ieeeLn` and whose `log` is the Rust standard
library definition `f64::log(self, base) = self.ln() / base.ln()`; the other
entries stay at the placeholder.  Used for concrete computations that only
evaluate `ln` at its exactly-determined arguments. -/
def ieeeLogFns : TransFns :=
  ⟨fun _ => F64.nan, fun _ => F64.nan, fun _ => F64.nan, fun _ => F64.nan,
   ieeeLn, fun _ _ => F64.nan, fun x b => F64.div (ieeeLn x) (ieeeLn b)⟩

/-- A necessary condition for two binary64 values to agree to within one ulp:
they are equal, or both are finite, or one is an infinity and the other a
finite value of the largest binade (`|y| ≥ 2^1023`, the only finite values
within one ulp of an infinity under any reading of "ulp").  Agreement within
one ulp implies this predicate, so refuting it refutes one-ulp agreement. -/
def F64.ulpAgreePossible (x y : F64) : Prop :=
  x = y ∨ (x.isFinite = true ∧ y.isFinite = true) ∨
    (x.isInf = true ∧ y.isFinite = true ∧ 2 ^ 1023 ≤ y.mag) ∨
    (y.isInf = true ∧ x.isFinite = true ∧ 2 ^ 1023 ≤ x.mag)

instance (x y : F64) : Decidable (F64.ulpAgreePossible x y) := by
  unfold F64.ulpAgreePossible; infer_instance

/-- The expression tree.  The source splits the node type across three enums
(`Expr` with variants `Leaf`/`Unary`/`Binary` dispatching to `LeafNode`,
`UnaryNode`, `BinaryNode`); this embedding flattens the three levels into one
inductive with one constructor per source variant:
`Leaf(Constant v)` is `constant v`, `Leaf(Variable i)` is `var i`,
`Unary(Negate e)` is `negate e`, …, `Binary(Frac(l, r))` is `frac l r`,
`Binary(Log(l, r))` is `log l r`.  Each child is a boxed owned subtree in the
source; ownership and boxing are invisible to the semantics. -/
inductive Expr : Type where
  | constant (value : F64)
  | var (idx : Nat)
  | negate (inner : Expr)
  | sqrt (inner : Expr)
  | sin (inner : Expr)
  | cos (inner : Expr)
  | exp (inner : Expr)
  | ln (inner : Expr)
  | add (left right : Expr)
  | multiply (left right : Expr)
  | frac (left right : Expr)
  | pow (base exponent : Expr)
  | log (base inner : Expr)
  deriving DecidableEq

/-- The tree-walk evaluator, from `Expression::evaluate` of the leaf, unary
and binary nodes.  `Variable(idx)` is `variables[*idx]`, a direct `Vec`
index: an out-of-range index is a Rust panic, modelled as `none`; every
other arm is total and propagates a child panic.  Binary nodes evaluate
their children in the source's order (left then right, except `Log`, whose
receiver — the second operand — is evaluated first); the order is observable
only through panic propagation and does not change the result.
`Pow(base, exponent)` is `base.powf(exponent)`, and `Log(base, inner)` is
`inner.log(base)` — the *first* operand of `Log` is the base. -/
def Expr.evaluate (fns : TransFns) : Expr → List F64 → Option F64
  | .constant value, _ => some value
  | .var idx, vars => vars.get? idx
  | .negate inner, vs => (inner.evaluate fns vs).map F64.neg
  | .sqrt inner, vs => (inner.evaluate fns vs).map fns.sqrt
  | .sin inner, vs => (inner.evaluate fns vs).map fns.sin
  | .cos inner, vs => (inner.evaluate fns vs).map fns.cos
  | .exp inner, vs => (inner.evaluate fns vs).map fns.exp
  | .ln inner, vs => (inner.evaluate fns vs).map fns.ln
  | .add left right, vs =>
      match left.evaluate fns vs, right.evaluate fns vs with
      | some a, some b => some (F64.add a b)
      | _, _ => none
  | .multiply left right, vs =>
      match left.evaluate fns vs, right.evaluate fns vs with
      | some a, some b => some (F64.mul a b)
      | _, _ => none
  | .frac left right, vs =>
      match left.evaluate fns vs, right.evaluate fns vs with
      | some a, some b => some (F64.div a b)
      | _, _ => none
  | .pow base exponent, vs =>
      match base.evaluate fns vs, exponent.evaluate fns vs with
      | some a, some b => some (fns.pow a b)
      | _, _ => none
  | .log base inner, vs =>
      match inner.evaluate fns vs, base.evaluate fns vs with
      | some i, some b => some (fns.log i b)
      | _, _ => none

/-- The arity analyzer, from `Expression::num_variables`: 0 for a constant,
`idx + 1` for a variable, the child's arity for unary nodes, and the maximum
of the children's arities for binary nodes. -/
def Expr.num_variables : Expr → Nat
  | .constant _ => 0
  | .var idx => idx + 1
  | .negate inner => inner.num_variables
  | .sqrt inner => inner.num_variables
  | .sin inner => inner.num_variables
  | .cos inner => inner.num_variables
  | .exp inner => inner.num_variables
  | .ln inner => inner.num_variables
  | .add left right => max left.num_variables right.num_variables
  | .multiply left right => max left.num_variables right.num_variables
  | .frac left right => max left.num_variables right.num_variables
  | .pow base exponent => max base.num_variables exponent.num_variables
  | .log base inner => max base.num_variables inner.num_variables

/-- The indices of all `Variable` leaves of a tree, in left-to-right order.
Not a source function; used to state what `num_variables` computes. -/
def Expr.variableIndices : Expr → List Nat
  | .constant _ => []
  | .var idx => [idx]
  | .negate inner => inner.variableIndices
  | .sqrt inner => inner.variableIndices
  | .sin inner => inner.variableIndices
  | .cos inner => inner.variableIndices
  | .exp inner => inner.variableIndices
  | .ln inner => inner.variableIndices
  | .add left right => left.variableIndices ++ right.variableIndices
  | .multiply left right => left.variableIndices ++ right.variableIndices
  | .frac left right => left.variableIndices ++ right.variableIndices
  | .pow base exponent => base.variableIndices ++ exponent.variableIndices
  | .log base inner => base.variableIndices ++ inner.variableIndices

/-- The `log` combinator from `functions.rs`: `log(argument, base)` builds
`BinaryNode::Log(argument, base)` — the argument goes into the *first* slot
of the `Log` variant.  (The source wraps the node in an
initialized/uninitialized `Expr` tag depending on the operands' tags; the
tag does not affect evaluation and is not modelled.) -/
def log (argument base : Expr) : Expr := Expr.log argument base

/-- The error type of the batch evaluator, from `ExpressionError`:
`NoVariable(NoVariableError)` (a fixed message, no data) and
`LengthMismatch(LengthMismatchError)` (constructed from the list of row
lengths, which it carries in its message). -/
inductive ExpressionError : Type where
  | noVariable : ExpressionError
  | lengthMismatch (lengths : List Nat) : ExpressionError
  deriving DecidableEq

/-- The batch evaluator, from `Expr::evaluate_vec`: collect the row lengths;
if there is no first length return the `NoVariable` error; if any length
differs from the first return the `LengthMismatch` error carrying the
lengths; otherwise evaluate every row.  The outer `Option` models a panic
inside a row evaluation (the source calls the panicking `evaluate` per
row); the error returns are `some` because the source returns them
normally. -/
def Expr.evaluate_vec (fns : TransFns) (t : Expr) (vars : List (List F64)) :
    Option (Except ExpressionError (List F64)) :=
  let lengths := vars.map List.length
  match lengths.head? with
  | none => some (Except.error ExpressionError.noVariable)
  | some first_length =>
      if lengths.any fun length => length != first_length then
        some (Except.error (ExpressionError.lengthMismatch lengths))
      else
        (vars.mapM fun values => t.evaluate fns values).map Except.ok

/-- Whether every operator of the tree has an implemented JIT lowering.
One arm per source arm: the `expression_value` visitors implement `Negate`
and `Sqrt` for unary nodes and `Add`, `Multiply`, `Frac` for binary nodes,
and fall through to `unimplemented!()` (a panic) for `Sin`, `Cos`, `Exp`,
`Ln`, `Pow` and `Log`.  Leaves always lower. -/
def Expr.jit_supported : Expr → Bool
  | .constant _ => true
  | .var _ => true
  | .negate inner => inner.jit_supported
  | .sqrt inner => inner.jit_supported
  | .sin _ => false
  | .cos _ => false
  | .exp _ => false
  | .ln _ => false
  | .add left right => left.jit_supported && right.jit_supported
  | .multiply left right => left.jit_supported && right.jit_supported
  | .frac left right => left.jit_supported && right.jit_supported
  | .pow _ _ => false
  | .log _ _ => false

/-- The 1-D lowering, from `build_jit_1d` plus the `compile_1d` driver: the
result is the semantics of the native function the driver returns, `none`
modelling a panic during lowering.  `Constant(v)` emits `f64const v`;
`Variable(_)` returns the sole block parameter — the index is ignored, every
variable reads the single input; unary and binary nodes lower their children
and combine them with the IR instruction of `expression_value` (`fneg`,
`sqrt`, `fadd`, `fmul`, `fdiv`), whose runtime behavior is the IEEE-754
binary64 operation; the remaining operators hit `unimplemented!()`. -/
def Expr.build_jit_1d (fns : TransFns) : Expr → Option (F64 → F64)
  | .constant value => some fun _ => value
  | .var _ => some fun parameter => parameter
  | .negate inner =>
      (inner.build_jit_1d fns).map fun f x => F64.neg (f x)
  | .sqrt inner =>
      (inner.build_jit_1d fns).map fun f x => fns.sqrt (f x)
  | .sin _ => none
  | .cos _ => none
  | .exp _ => none
  | .ln _ => none
  | .add left right =>
      match left.build_jit_1d fns, right.build_jit_1d fns with
      | some fl, some fr => some fun x => F64.add (fl x) (fr x)
      | _, _ => none
  | .multiply left right =>
      match left.build_jit_1d fns, right.build_jit_1d fns with
      | some fl, some fr => some fun x => F64.mul (fl x) (fr x)
      | _, _ => none
  | .frac left right =>
      match left.build_jit_1d fns, right.build_jit_1d fns with
      | some fl, some fr => some fun x => F64.div (fl x) (fr x)
      | _, _ => none
  | .pow _ _ => none
  | .log _ _ => none

/-- The 2-D lowering, from `build_jit_2d` plus the `compile_2d` driver.
`Variable(idx)` selects `param_0` for index 0 and `param_1` for index 1 and
panics (`panic!`, modelled `none`) for any other index; the rest is as in
the 1-D lowering. -/
def Expr.build_jit_2d (fns : TransFns) : Expr → Option (F64 → F64 → F64)
  | .constant value => some fun _ _ => value
  | .var idx =>
      match idx with
      | 0 => some fun param_0 _ => param_0
      | 1 => some fun _ param_1 => param_1
      | _ => none
  | .negate inner =>
      (inner.build_jit_2d fns).map fun f x y => F64.neg (f x y)
  | .sqrt inner =>
      (inner.build_jit_2d fns).map fun f x y => fns.sqrt (f x y)
  | .sin _ => none
  | .cos _ => none
  | .exp _ => none
  | .ln _ => none
  | .add left right =>
      match left.build_jit_2d fns, right.build_jit_2d fns with
      | some fl, some fr => some fun x y => F64.add (fl x y) (fr x y)
      | _, _ => none
  | .multiply left right =>
      match left.build_jit_2d fns, right.build_jit_2d fns with
      | some fl, some fr => some fun x y => F64.mul (fl x y) (fr x y)
      | _, _ => none
  | .frac left right =>
      match left.build_jit_2d fns, right.build_jit_2d fns with
      | some fl, some fr => some fun x y => F64.div (fl x y) (fr x y)
      | _, _ => none
  | .pow _ _ => none
  | .log _ _ => none

/-- The 3-D lowering, from `build_jit_3d` plus the `compile_3d` driver.
`Variable(idx)` selects the `idx`-th of the three parameters and panics for
`idx ≥ 3`; the rest is as in the 1-D lowering. -/
def Expr.build_jit_3d (fns : TransFns) : Expr → Option (F64 → F64 → F64 → F64)
  | .constant value => some fun _ _ _ => value
  | .var idx =>
      match idx with
      | 0 => some fun param_0 _ _ => param_0
      | 1 => some fun _ param_1 _ => param_1
      | 2 => some fun _ _ param_2 => param_2
      | _ => none
  | .negate inner =>
      (inner.build_jit_3d fns).map fun f x y z => F64.neg (f x y z)
  | .sqrt inner =>
      (inner.build_jit_3d fns).map fun f x y z => fns.sqrt (f x y z)
  | .sin _ => none
  | .cos _ => none
  | .exp _ => none
  | .ln _ => none
  | .add left right =>
      match left.build_jit_3d fns, right.build_jit_3d fns with
      | some fl, some fr => some fun x y z => F64.add (fl x y z) (fr x y z)
      | _, _ => none
  | .multiply left right =>
      match left.build_jit_3d fns, right.build_jit_3d fns with
      | some fl, some fr => some fun x y z => F64.mul (fl x y z) (fr x y z)
      | _, _ => none
  | .frac left right =>
      match left.build_jit_3d fns, right.build_jit_3d fns with
      | some fl, some fr => some fun x y z => F64.div (fl x y z) (fr x y z)
      | _, _ => none
  | .pow _ _ => none
  | .log _ _ => none

/-- Truncation of a `usize` value to a signed 32-bit integer, as performed by
`(i * 8) as i32` in the N-D leaf lowering: keep the low 32 bits and
reinterpret them as a two's-complement signed value. -/
def toI32 (n : Nat) : Int :=
  let m : Nat := n % 2 ^ 32
  if m < 2 ^ 31 then (m : Int) else (m : Int) - 2 ^ 32

/-- The byte offset the N-D lowering computes for `Variable(i)`:
`let arg_offset = (i * 8) as i32`.  The `usize` product `i * 8` wraps at
`2^64` in release builds; composing the two reductions is truncation of
`i * 8` modulo `2^32` into a signed 32-bit value, which `toI32` performs
directly (`2^32` divides `2^64`). -/
def arg_offset (idx : Nat) : Int := toI32 (idx * 8)

/-- The N-D lowering, from `build_jit` / `build_jit_nd` plus the
`compile_nd` driver.  The compiled function receives a pointer to `f64`
values (the `len` parameter is never consulted); memory is modelled as a
total map from signed byte offsets (relative to the pointer) to the `f64`
read at that offset.  `Variable(idx)` emits
`load F64 (args_ptr, arg_offset)` with `arg_offset = (idx * 8) as i32`; the
rest is as in the 1-D lowering. -/
def Expr.build_jit_nd (fns : TransFns) : Expr → Option ((Int → F64) → F64)
  | .constant value => some fun _ => value
  | .var idx => some fun mem => mem (arg_offset idx)
  | .negate inner =>
      (inner.build_jit_nd fns).map fun f mem => F64.neg (f mem)
  | .sqrt inner =>
      (inner.build_jit_nd fns).map fun f mem => fns.sqrt (f mem)
  | .sin _ => none
  | .cos _ => none
  | .exp _ => none
  | .ln _ => none
  | .add left right =>
      match left.build_jit_nd fns, right.build_jit_nd fns with
      | some fl, some fr => some fun mem => F64.add (fl mem) (fr mem)
      | _, _ => none
  | .multiply left right =>
      match left.build_jit_nd fns, right.build_jit_nd fns with
      | some fl, some fr => some fun mem => F64.mul (fl mem) (fr mem)
      | _, _ => none
  | .frac left right =>
      match left.build_jit_nd fns, right.build_jit_nd fns with
      | some fl, some fr => some fun mem => F64.div (fl mem) (fr mem)
      | _, _ => none
  | .pow _ _ => none
  | .log _ _ => none

end OxphysNumerics

namespace OxphysNumerics

/-! ### Totality and strictness of the evaluator -/

/-- When the variable vector is long enough, evaluation reaches no
out-of-range index and produces a value. -/
theorem evaluate_isSome_of_le (fns : TransFns) (t : Expr) (v : List F64)
    (h : t.num_variables ≤ v.length) : (t.evaluate fns v).isSome = true := by
  induction t with
  | constant value => simp [Expr.evaluate]
  | var idx =>
      have hlt : idx < v.length := by
        simpa [Expr.num_variables, Nat.succ_le_iff] using h
      simp [Expr.evaluate, List.getElem?_eq_getElem hlt]
  | negate inner ih =>
      obtain ⟨x, hx⟩ := Option.isSome_iff_exists.mp (ih h)
      simp [Expr.evaluate, hx]
  | sqrt inner ih =>
      obtain ⟨x, hx⟩ := Option.isSome_iff_exists.mp (ih h)
      simp [Expr.evaluate, hx]
  | sin inner ih =>
      obtain ⟨x, hx⟩ := Option.isSome_iff_exists.mp (ih h)
      simp [Expr.evaluate, hx]
  | cos inner ih =>
      obtain ⟨x, hx⟩ := Option.isSome_iff_exists.mp (ih h)
      simp [Expr.evaluate, hx]
  | exp inner ih =>
      obtain ⟨x, hx⟩ := Option.isSome_iff_exists.mp (ih h)
      simp [Expr.evaluate, hx]
  | ln inner ih =>
      obtain ⟨x, hx⟩ := Option.isSome_iff_exists.mp (ih h)
      simp [Expr.evaluate, hx]
  | add left right ihl ihr =>
      rw [Expr.num_variables, Nat.max_le] at h
      obtain ⟨x, hx⟩ := Option.isSome_iff_exists.mp (ihl h.1)
      obtain ⟨y, hy⟩ := Option.isSome_iff_exists.mp (ihr h.2)
      simp [Expr.evaluate, hx, hy]
  | multiply left right ihl ihr =>
      rw [Expr.num_variables, Nat.max_le] at h
      obtain ⟨x, hx⟩ := Option.isSome_iff_exists.mp (ihl h.1)
      obtain ⟨y, hy⟩ := Option.isSome_iff_exists.mp (ihr h.2)
      simp [Expr.evaluate, hx, hy]
  | frac left right ihl ihr =>
      rw [Expr.num_variables, Nat.max_le] at h
      obtain ⟨x, hx⟩ := Option.isSome_iff_exists.mp (ihl h.1)
      obtain ⟨y, hy⟩ := Option.isSome_iff_exists.mp (ihr h.2)
      simp [Expr.evaluate, hx, hy]
  | pow base exponent ihl ihr =>
      rw [Expr.num_variables, Nat.max_le] at h
      obtain ⟨x, hx⟩ := Option.isSome_iff_exists.mp (ihl h.1)
      obtain ⟨y, hy⟩ := Option.isSome_iff_exists.mp (ihr h.2)
      simp [Expr.evaluate, hx, hy]
  | log base inner ihl ihr =>
      rw [Expr.num_variables, Nat.max_le] at h
      obtain ⟨x, hx⟩ := Option.isSome_iff_exists.mp (ihl h.1)
      obtain ⟨y, hy⟩ := Option.isSome_iff_exists.mp (ihr h.2)
      simp [Expr.evaluate, hx, hy]

/-- The evaluator is strict: every operator evaluates all of its children, so
a variable vector shorter than the arity always reaches the out-of-range
index of a maximal variable leaf and panics. -/
theorem evaluate_eq_none_of_lt (fns : TransFns) (t : Expr) (v : List F64)
    (h : v.length < t.num_variables) : t.evaluate fns v = none := by
  induction t with
  | constant value => simp [Expr.num_variables] at h
  | var idx =>
      have hle : v.length ≤ idx := by
        simpa [Expr.num_variables, Nat.lt_succ_iff] using h
      simp [Expr.evaluate, List.get?_eq_none]
      exact hle
  | negate inner ih => simp [Expr.evaluate, ih h]
  | sqrt inner ih => simp [Expr.evaluate, ih h]
  | sin inner ih => simp [Expr.evaluate, ih h]
  | cos inner ih => simp [Expr.evaluate, ih h]
  | exp inner ih => simp [Expr.evaluate, ih h]
  | ln inner ih => simp [Expr.evaluate, ih h]
  | add left right ihl ihr =>
      rw [Expr.num_variables, lt_max_iff] at h
      rcases h with h | h
      · cases hr : right.evaluate fns v <;> simp [Expr.evaluate, ihl h, hr]
      · cases hl : left.evaluate fns v <;> simp [Expr.evaluate, ihr h, hl]
  | multiply left right ihl ihr =>
      rw [Expr.num_variables, lt_max_iff] at h
      rcases h with h | h
      · cases hr : right.evaluate fns v <;> simp [Expr.evaluate, ihl h, hr]
      · cases hl : left.evaluate fns v <;> simp [Expr.evaluate, ihr h, hl]
  | frac left right ihl ihr =>
      rw [Expr.num_variables, lt_max_iff] at h
      rcases h with h | h
      · cases hr : right.evaluate fns v <;> simp [Expr.evaluate, ihl h, hr]
      · cases hl : left.evaluate fns v <;> simp [Expr.evaluate, ihr h, hl]
  | pow base exponent ihl ihr =>
      rw [Expr.num_variables, lt_max_iff] at h
      rcases h with h | h
      · cases hr : exponent.evaluate fns v <;> simp [Expr.evaluate, ihl h, hr]
      · cases hl : base.evaluate fns v <;> simp [Expr.evaluate, ihr h, hl]
  | log base inner ihl ihr =>
      rw [Expr.num_variables, lt_max_iff] at h
      rcases h with h | h
      · cases hr : inner.evaluate fns v <;> simp [Expr.evaluate, ihl h, hr]
      · cases hl : base.evaluate fns v <;> simp [Expr.evaluate, ihr h, hl]

/-- C3 (counterexample).  The claim states that evaluating a tree on a vector
shorter than its arity fails with an `IndexOutOfRange` error value and
"neither substitutes zero nor aborts the process".  In the source,
`evaluate` has return type `f64` — it cannot return an error value, the
error sum type of the crate has no `IndexOutOfRange` variant, and
`Variable(idx)` is evaluated as `variables[*idx]`, a direct `Vec` index
that panics when `idx` is out of range.  Evaluating `Variable(0)` on the
empty vector is such a panic (modelled as `none`), not an error value. -/
theorem evaluate_short_vector_panics :
    (Expr.var 0).evaluate trivialTransFns [] = none := rfl

/-- C3 (amended).  Evaluation produces a value exactly when the variable
vector is at least as long as the tree's arity; a shorter vector makes the
evaluator panic via an out-of-range index (it neither substitutes zero nor
returns an error value).  In particular an arity-0 tree evaluates
successfully on the empty vector. -/
theorem evaluate_isSome_iff_arity_le (fns : TransFns) (t : Expr) (v : List F64) :
    (t.evaluate fns v).isSome = true ↔ t.num_variables ≤ v.length := by
  constructor
  · intro h
    by_contra hlt
    rw [evaluate_eq_none_of_lt fns t v (by omega)] at h
    simp at h
  · exact evaluate_isSome_of_le fns t v

/-! ### The arity analyzer -/

/-- Folding `max` from an arbitrary base value takes the maximum of the fold
from 0 and the base value. -/
theorem foldr_max_eq_max_foldr (xs : List Nat) (b : Nat) :
    xs.foldr max b = max (xs.foldr max 0) b := by
  induction xs with
  | nil => simp
  | cons x xs ih => simp [ih, Nat.max_assoc]

/-- C6.  `num_variables` computes the maximum of `index + 1` over all
`Variable(index)` leaves of the tree; the fold's base case 0 is the value on
a tree with no variable leaf. -/
theorem num_variables_eq_max_index_succ (t : Expr) :
    t.num_variables = (t.variableIndices.map (fun i => i + 1)).foldr max 0 := by
  induction t with
  | constant value => rfl
  | var idx => simp [Expr.num_variables, Expr.variableIndices]
  | negate inner ih => simpa [Expr.num_variables, Expr.variableIndices] using ih
  | sqrt inner ih => simpa [Expr.num_variables, Expr.variableIndices] using ih
  | sin inner ih => simpa [Expr.num_variables, Expr.variableIndices] using ih
  | cos inner ih => simpa [Expr.num_variables, Expr.variableIndices] using ih
  | exp inner ih => simpa [Expr.num_variables, Expr.variableIndices] using ih
  | ln inner ih => simpa [Expr.num_variables, Expr.variableIndices] using ih
  | add left right ihl ihr =>
      show max left.num_variables right.num_variables
          = ((left.variableIndices ++ right.variableIndices).map (fun i => i + 1)).foldr max 0
      rw [List.map_append, List.foldr_append, foldr_max_eq_max_foldr, ihl, ihr]
  | multiply left right ihl ihr =>
      show max left.num_variables right.num_variables
          = ((left.variableIndices ++ right.variableIndices).map (fun i => i + 1)).foldr max 0
      rw [List.map_append, List.foldr_append, foldr_max_eq_max_foldr, ihl, ihr]
  | frac left right ihl ihr =>
      show max left.num_variables right.num_variables
          = ((left.variableIndices ++ right.variableIndices).map (fun i => i + 1)).foldr max 0
      rw [List.map_append, List.foldr_append, foldr_max_eq_max_foldr, ihl, ihr]
  | pow base exponent ihl ihr =>
      show max base.num_variables exponent.num_variables
          = ((base.variableIndices ++ exponent.variableIndices).map (fun i => i + 1)).foldr max 0
      rw [List.map_append, List.foldr_append, foldr_max_eq_max_foldr, ihl, ihr]
  | log base inner ihl ihr =>
      show max base.num_variables inner.num_variables
          = ((base.variableIndices ++ inner.variableIndices).map (fun i => i + 1)).foldr max 0
      rw [List.map_append, List.foldr_append, foldr_max_eq_max_foldr, ihl, ihr]


/-! ### Success and panic behavior of the four compile entry points -/

/-- The 1-D lowering produces a function exactly when every operator has an
implemented lowering; the variable index is never checked. -/
theorem build_jit_1d_isSome_iff (fns : TransFns) (t : Expr) :
    (t.build_jit_1d fns).isSome = true ↔ t.jit_supported = true := by
  induction t with
  | constant value => simp [Expr.build_jit_1d, Expr.jit_supported]
  | var idx => simp [Expr.build_jit_1d, Expr.jit_supported]
  | negate inner ih =>
      simpa [Expr.build_jit_1d, Expr.jit_supported] using ih
  | sqrt inner ih =>
      simpa [Expr.build_jit_1d, Expr.jit_supported] using ih
  | sin inner ih => simp [Expr.build_jit_1d, Expr.jit_supported]
  | cos inner ih => simp [Expr.build_jit_1d, Expr.jit_supported]
  | exp inner ih => simp [Expr.build_jit_1d, Expr.jit_supported]
  | ln inner ih => simp [Expr.build_jit_1d, Expr.jit_supported]
  | add left right ihl ihr =>
      cases hl : left.build_jit_1d fns <;> cases hr : right.build_jit_1d fns <;>
        simp [hl, hr] at ihl ihr <;>
        simp [Expr.build_jit_1d, Expr.jit_supported, hl, hr, ihl, ihr]
  | multiply left right ihl ihr =>
      cases hl : left.build_jit_1d fns <;> cases hr : right.build_jit_1d fns <;>
        simp [hl, hr] at ihl ihr <;>
        simp [Expr.build_jit_1d, Expr.jit_supported, hl, hr, ihl, ihr]
  | frac left right ihl ihr =>
      cases hl : left.build_jit_1d fns <;> cases hr : right.build_jit_1d fns <;>
        simp [hl, hr] at ihl ihr <;>
        simp [Expr.build_jit_1d, Expr.jit_supported, hl, hr, ihl, ihr]
  | pow base exponent ihl ihr => simp [Expr.build_jit_1d, Expr.jit_supported]
  | log base inner ihl ihr => simp [Expr.build_jit_1d, Expr.jit_supported]

/-- The 2-D lowering produces a function exactly when every operator has an
implemented lowering and every variable index is 0 or 1 (that is, the arity
is at most 2); an out-of-range index is a `panic!`, not an error return. -/
theorem build_jit_2d_isSome_iff (fns : TransFns) (t : Expr) :
    (t.build_jit_2d fns).isSome = true ↔
      (t.jit_supported = true ∧ t.num_variables ≤ 2) := by
  induction t with
  | constant value => simp [Expr.build_jit_2d, Expr.jit_supported, Expr.num_variables]
  | var idx =>
      rcases idx with _ | _ | n <;>
        simp [Expr.build_jit_2d, Expr.jit_supported, Expr.num_variables]
  | negate inner ih =>
      simpa [Expr.build_jit_2d, Expr.jit_supported, Expr.num_variables] using ih
  | sqrt inner ih =>
      simpa [Expr.build_jit_2d, Expr.jit_supported, Expr.num_variables] using ih
  | sin inner ih => simp [Expr.build_jit_2d, Expr.jit_supported]
  | cos inner ih => simp [Expr.build_jit_2d, Expr.jit_supported]
  | exp inner ih => simp [Expr.build_jit_2d, Expr.jit_supported]
  | ln inner ih => simp [Expr.build_jit_2d, Expr.jit_supported]
  | add left right ihl ihr =>
      cases hl : left.build_jit_2d fns <;> cases hr : right.build_jit_2d fns <;>
        simp [hl, hr] at ihl ihr <;>
        simp [Expr.build_jit_2d, Expr.jit_supported, Expr.num_variables,
          Nat.max_le, hl, hr, ihl, ihr] <;> tauto
  | multiply left right ihl ihr =>
      cases hl : left.build_jit_2d fns <;> cases hr : right.build_jit_2d fns <;>
        simp [hl, hr] at ihl ihr <;>
        simp [Expr.build_jit_2d, Expr.jit_supported, Expr.num_variables,
          Nat.max_le, hl, hr, ihl, ihr] <;> tauto
  | frac left right ihl ihr =>
      cases hl : left.build_jit_2d fns <;> cases hr : right.build_jit_2d fns <;>
        simp [hl, hr] at ihl ihr <;>
        simp [Expr.build_jit_2d, Expr.jit_supported, Expr.num_variables,
          Nat.max_le, hl, hr, ihl, ihr] <;> tauto
  | pow base exponent ihl ihr => simp [Expr.build_jit_2d, Expr.jit_supported]
  | log base inner ihl ihr => simp [Expr.build_jit_2d, Expr.jit_supported]

/-- The 3-D lowering produces a function exactly when every operator has an
implemented lowering and every variable index is 0, 1 or 2 (arity at most
3); an out-of-range index is a `panic!`, not an error return. -/
theorem build_jit_3d_isSome_iff (fns : TransFns) (t : Expr) :
    (t.build_jit_3d fns).isSome = true ↔
      (t.jit_supported = true ∧ t.num_variables ≤ 3) := by
  induction t with
  | constant value => simp [Expr.build_jit_3d, Expr.jit_supported, Expr.num_variables]
  | var idx =>
      rcases idx with _ | _ | _ | n <;>
        simp [Expr.build_jit_3d, Expr.jit_supported, Expr.num_variables]
  | negate inner ih =>
      simpa [Expr.build_jit_3d, Expr.jit_supported, Expr.num_variables] using ih
  | sqrt inner ih =>
      simpa [Expr.build_jit_3d, Expr.jit_supported, Expr.num_variables] using ih
  | sin inner ih => simp [Expr.build_jit_3d, Expr.jit_supported]
  | cos inner ih => simp [Expr.build_jit_3d, Expr.jit_supported]
  | exp inner ih => simp [Expr.build_jit_3d, Expr.jit_supported]
  | ln inner ih => simp [Expr.build_jit_3d, Expr.jit_supported]
  | add left right ihl ihr =>
      cases hl : left.build_jit_3d fns <;> cases hr : right.build_jit_3d fns <;>
        simp [hl, hr] at ihl ihr <;>
        simp [Expr.build_jit_3d, Expr.jit_supported, Expr.num_variables,
          Nat.max_le, hl, hr, ihl, ihr] <;> tauto
  | multiply left right ihl ihr =>
      cases hl : left.build_jit_3d fns <;> cases hr : right.build_jit_3d fns <;>
        simp [hl, hr] at ihl ihr <;>
        simp [Expr.build_jit_3d, Expr.jit_supported, Expr.num_variables,
          Nat.max_le, hl, hr, ihl, ihr] <;> tauto
  | frac left right ihl ihr =>
      cases hl : left.build_jit_3d fns <;> cases hr : right.build_jit_3d fns <;>
        simp [hl, hr] at ihl ihr <;>
        simp [Expr.build_jit_3d, Expr.jit_supported, Expr.num_variables,
          Nat.max_le, hl, hr, ihl, ihr] <;> tauto
  | pow base exponent ihl ihr => simp [Expr.build_jit_3d, Expr.jit_supported]
  | log base inner ihl ihr => simp [Expr.build_jit_3d, Expr.jit_supported]

/-- The N-D lowering produces a function exactly when every operator has an
implemented lowering; the variable index is never range-checked. -/
theorem build_jit_nd_isSome_iff (fns : TransFns) (t : Expr) :
    (t.build_jit_nd fns).isSome = true ↔ t.jit_supported = true := by
  induction t with
  | constant value => simp [Expr.build_jit_nd, Expr.jit_supported]
  | var idx => simp [Expr.build_jit_nd, Expr.jit_supported]
  | negate inner ih =>
      simpa [Expr.build_jit_nd, Expr.jit_supported] using ih
  | sqrt inner ih =>
      simpa [Expr.build_jit_nd, Expr.jit_supported] using ih
  | sin inner ih => simp [Expr.build_jit_nd, Expr.jit_supported]
  | cos inner ih => simp [Expr.build_jit_nd, Expr.jit_supported]
  | exp inner ih => simp [Expr.build_jit_nd, Expr.jit_supported]
  | ln inner ih => simp [Expr.build_jit_nd, Expr.jit_supported]
  | add left right ihl ihr =>
      cases hl : left.build_jit_nd fns <;> cases hr : right.build_jit_nd fns <;>
        simp [hl, hr] at ihl ihr <;>
        simp [Expr.build_jit_nd, Expr.jit_supported, hl, hr, ihl, ihr]
  | multiply left right ihl ihr =>
      cases hl : left.build_jit_nd fns <;> cases hr : right.build_jit_nd fns <;>
        simp [hl, hr] at ihl ihr <;>
        simp [Expr.build_jit_nd, Expr.jit_supported, hl, hr, ihl, ihr]
  | frac left right ihl ihr =>
      cases hl : left.build_jit_nd fns <;> cases hr : right.build_jit_nd fns <;>
        simp [hl, hr] at ihl ihr <;>
        simp [Expr.build_jit_nd, Expr.jit_supported, hl, hr, ihl, ihr]
  | pow base exponent ihl ihr => simp [Expr.build_jit_nd, Expr.jit_supported]
  | log base inner ihl ihr => simp [Expr.build_jit_nd, Expr.jit_supported]

/-- C2 (counterexample).  The claim states that `compile_Xd(t)` returns a
`ShapeMismatch` error if and only if `arity(t) > X`.  In the source no
`ShapeMismatch` error exists and no compile entry point checks the arity:
`compile_1d` on `Variable(1)` (arity 2 > 1) succeeds — `build_jit_1d` binds
every variable to the sole parameter — and `compile_2d` on `Variable(3)`
(arity 4 > 2) panics in the `panic!` arm of `build_jit_2d` (modelled
`none`), aborting rather than returning an error value. -/
theorem compile_shape_check_counterexample :
    (Expr.build_jit_1d trivialTransFns (Expr.var 1)).isSome = true ∧
      (Expr.var 1).num_variables = 2 ∧
      Expr.build_jit_2d trivialTransFns (Expr.var 3) = none ∧
      (Expr.var 3).num_variables = 4 :=
  ⟨rfl, rfl, rfl, rfl⟩

/-- C2 (amended).  No `ShapeMismatch` error value exists.  `compile_1d`
succeeds for every tree of implemented operators regardless of arity (every
variable index reads the sole parameter); `compile_2d` and `compile_3d`
succeed exactly when the operators are implemented and the arity is at most
the shape, and otherwise panic (`panic!` on an out-of-range variable index,
`unimplemented!()` on an unimplemented operator) instead of returning an
error; `compile_nd` never checks the arity. -/
theorem compile_shape_success_characterization (fns : TransFns) (t : Expr) :
    ((t.build_jit_1d fns).isSome = true ↔ t.jit_supported = true) ∧
      ((t.build_jit_2d fns).isSome = true ↔
        (t.jit_supported = true ∧ t.num_variables ≤ 2)) ∧
      ((t.build_jit_3d fns).isSome = true ↔
        (t.jit_supported = true ∧ t.num_variables ≤ 3)) ∧
      ((t.build_jit_nd fns).isSome = true ↔ t.jit_supported = true) :=
  ⟨build_jit_1d_isSome_iff fns t, build_jit_2d_isSome_iff fns t,
    build_jit_3d_isSome_iff fns t, build_jit_nd_isSome_iff fns t⟩

/-- C5 (counterexample).  The claim states that each compile entry point
either lowers `Sin`/`Cos`/`Exp`/`Ln`/`Pow`/`Log` as an external call or
returns an `UnsupportedInJit` error, and never panics.  In the source no
`UnsupportedInJit` error exists, and every `expression_value` visitor hits
`unimplemented!()` — a panic, modelled `none` — for these operators:
compiling `Pow(2, 3)` panics in all four entry points, while the tree-walk
evaluator handles the same tree. -/
theorem pow_tree_compilation_panics :
    Expr.build_jit_1d trivialTransFns
        (Expr.pow (Expr.constant (F64.fin 2)) (Expr.constant (F64.fin 3))) = none ∧
      Expr.build_jit_2d trivialTransFns
        (Expr.pow (Expr.constant (F64.fin 2)) (Expr.constant (F64.fin 3))) = none ∧
      Expr.build_jit_3d trivialTransFns
        (Expr.pow (Expr.constant (F64.fin 2)) (Expr.constant (F64.fin 3))) = none ∧
      Expr.build_jit_nd trivialTransFns
        (Expr.pow (Expr.constant (F64.fin 2)) (Expr.constant (F64.fin 3))) = none ∧
      (Expr.pow (Expr.constant (F64.fin 2)) (Expr.constant (F64.fin 3))).evaluate
          trivialTransFns []
        = some (trivialTransFns.pow (F64.fin 2) (F64.fin 3)) :=
  ⟨rfl, rfl, rfl, rfl, rfl⟩

/-- C5 (amended).  Every compile entry point panics (via the
`unimplemented!()` arm of the lowering visitor, modelled `none`) on every
tree containing a `Sin`, `Cos`, `Exp`, `Ln`, `Pow` or `Log` node: no
external call is emitted for them and no `UnsupportedInJit` error value is
returned (none exists in the source). -/
theorem unsupported_ops_panic_all_shapes (fns : TransFns) (t : Expr)
    (h : t.jit_supported = false) :
    t.build_jit_1d fns = none ∧ t.build_jit_2d fns = none ∧
      t.build_jit_3d fns = none ∧ t.build_jit_nd fns = none := by
  refine ⟨?_, ?_, ?_, ?_⟩
  · cases h1 : t.build_jit_1d fns with
    | none => rfl
    | some f =>
        have := (build_jit_1d_isSome_iff fns t).mp (by simp [h1])
        rw [this] at h; cases h
  · cases h2 : t.build_jit_2d fns with
    | none => rfl
    | some f =>
        have := ((build_jit_2d_isSome_iff fns t).mp (by simp [h2])).1
        rw [this] at h; cases h
  · cases h3 : t.build_jit_3d fns with
    | none => rfl
    | some f =>
        have := ((build_jit_3d_isSome_iff fns t).mp (by simp [h3])).1
        rw [this] at h; cases h
  · cases hn : t.build_jit_nd fns with
    | none => rfl
    | some f =>
        have := (build_jit_nd_isSome_iff fns t).mp (by simp [hn])
        rw [this] at h; cases h

/-- C5 (witness).  The amended theorem applied to `Cos(Variable(0))`, whose
lowering is unimplemented. -/
theorem unsupported_ops_panic_all_shapes_witness :
    Expr.build_jit_1d trivialTransFns (Expr.cos (Expr.var 0)) = none ∧
      Expr.build_jit_2d trivialTransFns (Expr.cos (Expr.var 0)) = none ∧
      Expr.build_jit_3d trivialTransFns (Expr.cos (Expr.var 0)) = none ∧
      Expr.build_jit_nd trivialTransFns (Expr.cos (Expr.var 0)) = none :=
  unsupported_ops_panic_all_shapes trivialTransFns (Expr.cos (Expr.var 0)) rfl

/-! ### Agreement between the evaluator and the compiled functions -/

/-- For variable indices below `2^28` the truncated byte offset is the
intended `8 * idx`. -/
theorem arg_offset_of_lt (idx : Nat) (h : idx < 2 ^ 28) :
    arg_offset idx = 8 * idx := by
  simp only [arg_offset, toI32]
  rw [Nat.mod_eq_of_lt (by omega), if_pos (by omega)]
  omega

/-- For variable indices of at least `2^28` the truncated byte offset always
differs from the intended `8 * idx`: the truncated value lies in
`[-2^31, 2^31)` while `8 * idx ≥ 2^31`. -/
theorem arg_offset_ne_of_ge (idx : Nat) (h : 2 ^ 28 ≤ idx) :
    arg_offset idx ≠ 8 * idx := by
  simp only [arg_offset, toI32]
  split <;> omega

/-- The function compiled by the 1-D entry point computes exactly what the
evaluator computes on the one-element vector, for every tree of implemented
operators with arity at most 1.  Both sides apply the same primitive
operations to the same operands in the same order, so the results are the
same value bit for bit. -/
theorem build_jit_1d_agrees (fns : TransFns) (t : Expr) (hs : t.jit_supported = true)
    (h1 : t.num_variables ≤ 1) :
    ∃ f, t.build_jit_1d fns = some f ∧ ∀ x, t.evaluate fns [x] = some (f x) := by
  induction t with
  | constant value => exact ⟨fun _ => value, rfl, fun x => rfl⟩
  | var idx =>
      have h0 : idx = 0 := by simp [Expr.num_variables] at h1; omega
      subst h0
      exact ⟨fun parameter => parameter, rfl, fun x => rfl⟩
  | negate inner ih =>
      obtain ⟨f, hf, hev⟩ := ih hs h1
      refine ⟨fun x => F64.neg (f x), by simp [Expr.build_jit_1d, hf], ?_⟩
      intro x; simp [Expr.evaluate, hev x]
  | sqrt inner ih =>
      obtain ⟨f, hf, hev⟩ := ih hs h1
      refine ⟨fun x => fns.sqrt (f x), by simp [Expr.build_jit_1d, hf], ?_⟩
      intro x; simp [Expr.evaluate, hev x]
  | sin inner ih => simp [Expr.jit_supported] at hs
  | cos inner ih => simp [Expr.jit_supported] at hs
  | exp inner ih => simp [Expr.jit_supported] at hs
  | ln inner ih => simp [Expr.jit_supported] at hs
  | add left right ihl ihr =>
      rw [Expr.jit_supported, Bool.and_eq_true] at hs
      rw [Expr.num_variables, Nat.max_le] at h1
      obtain ⟨fl, hfl, hevl⟩ := ihl hs.1 h1.1
      obtain ⟨fr, hfr, hevr⟩ := ihr hs.2 h1.2
      refine ⟨fun x => F64.add (fl x) (fr x),
        by simp [Expr.build_jit_1d, hfl, hfr], ?_⟩
      intro x; simp [Expr.evaluate, hevl x, hevr x]
  | multiply left right ihl ihr =>
      rw [Expr.jit_supported, Bool.and_eq_true] at hs
      rw [Expr.num_variables, Nat.max_le] at h1
      obtain ⟨fl, hfl, hevl⟩ := ihl hs.1 h1.1
      obtain ⟨fr, hfr, hevr⟩ := ihr hs.2 h1.2
      refine ⟨fun x => F64.mul (fl x) (fr x),
        by simp [Expr.build_jit_1d, hfl, hfr], ?_⟩
      intro x; simp [Expr.evaluate, hevl x, hevr x]
  | frac left right ihl ihr =>
      rw [Expr.jit_supported, Bool.and_eq_true] at hs
      rw [Expr.num_variables, Nat.max_le] at h1
      obtain ⟨fl, hfl, hevl⟩ := ihl hs.1 h1.1
      obtain ⟨fr, hfr, hevr⟩ := ihr hs.2 h1.2
      refine ⟨fun x => F64.div (fl x) (fr x),
        by simp [Expr.build_jit_1d, hfl, hfr], ?_⟩
      intro x; simp [Expr.evaluate, hevl x, hevr x]
  | pow base exponent ihl ihr => simp [Expr.jit_supported] at hs
  | log base inner ihl ihr => simp [Expr.jit_supported] at hs

/-- The function compiled by the 2-D entry point computes exactly what the
evaluator computes on the two-element vector, for every tree of implemented
operators with arity at most 2. -/
theorem build_jit_2d_agrees (fns : TransFns) (t : Expr) (hs : t.jit_supported = true)
    (h2 : t.num_variables ≤ 2) :
    ∃ f, t.build_jit_2d fns = some f ∧ ∀ x y, t.evaluate fns [x, y] = some (f x y) := by
  induction t with
  | constant value => exact ⟨fun _ _ => value, rfl, fun x y => rfl⟩
  | var idx =>
      rcases idx with _ | _ | n
      · exact ⟨fun param_0 _ => param_0, rfl, fun x y => rfl⟩
      · exact ⟨fun _ param_1 => param_1, rfl, fun x y => rfl⟩
      · exact absurd h2 (by simp [Expr.num_variables])
  | negate inner ih =>
      obtain ⟨f, hf, hev⟩ := ih hs h2
      refine ⟨fun x y => F64.neg (f x y), by simp [Expr.build_jit_2d, hf], ?_⟩
      intro x y; simp [Expr.evaluate, hev x y]
  | sqrt inner ih =>
      obtain ⟨f, hf, hev⟩ := ih hs h2
      refine ⟨fun x y => fns.sqrt (f x y), by simp [Expr.build_jit_2d, hf], ?_⟩
      intro x y; simp [Expr.evaluate, hev x y]
  | sin inner ih => simp [Expr.jit_supported] at hs
  | cos inner ih => simp [Expr.jit_supported] at hs
  | exp inner ih => simp [Expr.jit_supported] at hs
  | ln inner ih => simp [Expr.jit_supported] at hs
  | add left right ihl ihr =>
      rw [Expr.jit_supported, Bool.and_eq_true] at hs
      rw [Expr.num_variables, Nat.max_le] at h2
      obtain ⟨fl, hfl, hevl⟩ := ihl hs.1 h2.1
      obtain ⟨fr, hfr, hevr⟩ := ihr hs.2 h2.2
      refine ⟨fun x y => F64.add (fl x y) (fr x y),
        by simp [Expr.build_jit_2d, hfl, hfr], ?_⟩
      intro x y; simp [Expr.evaluate, hevl x y, hevr x y]
  | multiply left right ihl ihr =>
      rw [Expr.jit_supported, Bool.and_eq_true] at hs
      rw [Expr.num_variables, Nat.max_le] at h2
      obtain ⟨fl, hfl, hevl⟩ := ihl hs.1 h2.1
      obtain ⟨fr, hfr, hevr⟩ := ihr hs.2 h2.2
      refine ⟨fun x y => F64.mul (fl x y) (fr x y),
        by simp [Expr.build_jit_2d, hfl, hfr], ?_⟩
      intro x y; simp [Expr.evaluate, hevl x y, hevr x y]
  | frac left right ihl ihr =>
      rw [Expr.jit_supported, Bool.and_eq_true] at hs
      rw [Expr.num_variables, Nat.max_le] at h2
      obtain ⟨fl, hfl, hevl⟩ := ihl hs.1 h2.1
      obtain ⟨fr, hfr, hevr⟩ := ihr hs.2 h2.2
      refine ⟨fun x y => F64.div (fl x y) (fr x y),
        by simp [Expr.build_jit_2d, hfl, hfr], ?_⟩
      intro x y; simp [Expr.evaluate, hevl x y, hevr x y]
  | pow base exponent ihl ihr => simp [Expr.jit_supported] at hs
  | log base inner ihl ihr => simp [Expr.jit_supported] at hs

/-- The function compiled by the 3-D entry point computes exactly what the
evaluator computes on the three-element vector, for every tree of
implemented operators with arity at most 3. -/
theorem build_jit_3d_agrees (fns : TransFns) (t : Expr) (hs : t.jit_supported = true)
    (h3 : t.num_variables ≤ 3) :
    ∃ f, t.build_jit_3d fns = some f ∧
      ∀ x y z, t.evaluate fns [x, y, z] = some (f x y z) := by
  induction t with
  | constant value => exact ⟨fun _ _ _ => value, rfl, fun x y z => rfl⟩
  | var idx =>
      rcases idx with _ | _ | _ | n
      · exact ⟨fun param_0 _ _ => param_0, rfl, fun x y z => rfl⟩
      · exact ⟨fun _ param_1 _ => param_1, rfl, fun x y z => rfl⟩
      · exact ⟨fun _ _ param_2 => param_2, rfl, fun x y z => rfl⟩
      · exact absurd h3 (by simp [Expr.num_variables])
  | negate inner ih =>
      obtain ⟨f, hf, hev⟩ := ih hs h3
      refine ⟨fun x y z => F64.neg (f x y z), by simp [Expr.build_jit_3d, hf], ?_⟩
      intro x y z; simp [Expr.evaluate, hev x y z]
  | sqrt inner ih =>
      obtain ⟨f, hf, hev⟩ := ih hs h3
      refine ⟨fun x y z => fns.sqrt (f x y z), by simp [Expr.build_jit_3d, hf], ?_⟩
      intro x y z; simp [Expr.evaluate, hev x y z]
  | sin inner ih => simp [Expr.jit_supported] at hs
  | cos inner ih => simp [Expr.jit_supported] at hs
  | exp inner ih => simp [Expr.jit_supported] at hs
  | ln inner ih => simp [Expr.jit_supported] at hs
  | add left right ihl ihr =>
      rw [Expr.jit_supported, Bool.and_eq_true] at hs
      rw [Expr.num_variables, Nat.max_le] at h3
      obtain ⟨fl, hfl, hevl⟩ := ihl hs.1 h3.1
      obtain ⟨fr, hfr, hevr⟩ := ihr hs.2 h3.2
      refine ⟨fun x y z => F64.add (fl x y z) (fr x y z),
        by simp [Expr.build_jit_3d, hfl, hfr], ?_⟩
      intro x y z; simp [Expr.evaluate, hevl x y z, hevr x y z]
  | multiply left right ihl ihr =>
      rw [Expr.jit_supported, Bool.and_eq_true] at hs
      rw [Expr.num_variables, Nat.max_le] at h3
      obtain ⟨fl, hfl, hevl⟩ := ihl hs.1 h3.1
      obtain ⟨fr, hfr, hevr⟩ := ihr hs.2 h3.2
      refine ⟨fun x y z => F64.mul (fl x y z) (fr x y z),
        by simp [Expr.build_jit_3d, hfl, hfr], ?_⟩
      intro x y z; simp [Expr.evaluate, hevl x y z, hevr x y z]
  | frac left right ihl ihr =>
      rw [Expr.jit_supported, Bool.and_eq_true] at hs
      rw [Expr.num_variables, Nat.max_le] at h3
      obtain ⟨fl, hfl, hevl⟩ := ihl hs.1 h3.1
      obtain ⟨fr, hfr, hevr⟩ := ihr hs.2 h3.2
      refine ⟨fun x y z => F64.div (fl x y z) (fr x y z),
        by simp [Expr.build_jit_3d, hfl, hfr], ?_⟩
      intro x y z; simp [Expr.evaluate, hevl x y z, hevr x y z]
  | pow base exponent ihl ihr => simp [Expr.jit_supported] at hs
  | log base inner ihl ihr => simp [Expr.jit_supported] at hs

/-- The function compiled by the N-D entry point computes exactly what the
evaluator computes, for every tree of implemented operators whose variable
indices fit the offset truncation (arity at most `2^28`), called on a
pointer to a buffer holding the variable vector (`mem` maps the byte offset
`8 * i` to element `i`). -/
theorem build_jit_nd_agrees (fns : TransFns) (t : Expr) (v : List F64)
    (mem : Int → F64) (hs : t.jit_supported = true)
    (hlen : t.num_variables ≤ v.length) (hbound : t.num_variables ≤ 2 ^ 28)
    (hmem : ∀ i : Nat, i < v.length → v.get? i = some (mem (8 * (i : Int)))) :
    ∃ f, t.build_jit_nd fns = some f ∧ t.evaluate fns v = some (f mem) := by
  induction t with
  | constant value => exact ⟨fun _ => value, rfl, rfl⟩
  | var idx =>
      have hidx : idx < v.length := by simp [Expr.num_variables] at hlen; omega
      have hb : idx < 2 ^ 28 := by simp [Expr.num_variables] at hbound; omega
      refine ⟨fun mem => mem (arg_offset idx), rfl, ?_⟩
      show v.get? idx = some (mem (arg_offset idx))
      rw [arg_offset_of_lt idx hb]
      exact hmem idx hidx
  | negate inner ih =>
      obtain ⟨f, hf, hev⟩ := ih hs hlen hbound
      exact ⟨fun mem => F64.neg (f mem), by simp [Expr.build_jit_nd, hf],
        by simp [Expr.evaluate, hev]⟩
  | sqrt inner ih =>
      obtain ⟨f, hf, hev⟩ := ih hs hlen hbound
      exact ⟨fun mem => fns.sqrt (f mem), by simp [Expr.build_jit_nd, hf],
        by simp [Expr.evaluate, hev]⟩
  | sin inner ih => simp [Expr.jit_supported] at hs
  | cos inner ih => simp [Expr.jit_supported] at hs
  | exp inner ih => simp [Expr.jit_supported] at hs
  | ln inner ih => simp [Expr.jit_supported] at hs
  | add left right ihl ihr =>
      rw [Expr.jit_supported, Bool.and_eq_true] at hs
      rw [Expr.num_variables, Nat.max_le] at hlen hbound
      obtain ⟨fl, hfl, hevl⟩ := ihl hs.1 hlen.1 hbound.1
      obtain ⟨fr, hfr, hevr⟩ := ihr hs.2 hlen.2 hbound.2
      exact ⟨fun mem => F64.add (fl mem) (fr mem),
        by simp [Expr.build_jit_nd, hfl, hfr],
        by simp [Expr.evaluate, hevl, hevr]⟩
  | multiply left right ihl ihr =>
      rw [Expr.jit_supported, Bool.and_eq_true] at hs
      rw [Expr.num_variables, Nat.max_le] at hlen hbound
      obtain ⟨fl, hfl, hevl⟩ := ihl hs.1 hlen.1 hbound.1
      obtain ⟨fr, hfr, hevr⟩ := ihr hs.2 hlen.2 hbound.2
      exact ⟨fun mem => F64.mul (fl mem) (fr mem),
        by simp [Expr.build_jit_nd, hfl, hfr],
        by simp [Expr.evaluate, hevl, hevr]⟩
  | frac left right ihl ihr =>
      rw [Expr.jit_supported, Bool.and_eq_true] at hs
      rw [Expr.num_variables, Nat.max_le] at hlen hbound
      obtain ⟨fl, hfl, hevl⟩ := ihl hs.1 hlen.1 hbound.1
      obtain ⟨fr, hfr, hevr⟩ := ihr hs.2 hlen.2 hbound.2
      exact ⟨fun mem => F64.div (fl mem) (fr mem),
        by simp [Expr.build_jit_nd, hfl, hfr],
        by simp [Expr.evaluate, hevl, hevr]⟩
  | pow base exponent ihl ihr => simp [Expr.jit_supported] at hs
  | log base inner ihl ihr => simp [Expr.jit_supported] at hs

/-- C1 (counterexample).  The claim states that for trees containing the
transcendental operators the evaluator and the JIT-compiled function agree
to within one ulp.  No such compiled function exists: lowering any tree
containing `Sin`, `Cos`, `Exp`, `Ln`, `Pow` or `Log` hits the
`unimplemented!()` arm of the lowering visitor and panics (modelled
`none`) in all four compile entry points, while the evaluator computes a
value for the same tree — shown here for `Sin(Constant(0))`. -/
theorem sin_tree_has_no_compiled_function :
    Expr.build_jit_1d trivialTransFns (Expr.sin (Expr.constant (F64.fin 0))) = none ∧
      Expr.build_jit_2d trivialTransFns (Expr.sin (Expr.constant (F64.fin 0))) = none ∧
      Expr.build_jit_3d trivialTransFns (Expr.sin (Expr.constant (F64.fin 0))) = none ∧
      Expr.build_jit_nd trivialTransFns (Expr.sin (Expr.constant (F64.fin 0))) = none ∧
      (Expr.sin (Expr.constant (F64.fin 0))).evaluate trivialTransFns []
        = some (trivialTransFns.sin (F64.fin 0)) :=
  ⟨rfl, rfl, rfl, rfl, rfl⟩

/-- C1 (amended).  For every tree built from the operators the JIT
implements (constants, variables, negation, square root, addition,
multiplication, division) and shape-compatible inputs, the tree-walk
evaluator and every compiled function return the same value bit for bit:
both apply the same IEEE-754 primitives to the same operands in the same
order (the statement is parametric in the primitive implementations, so any
host arithmetic satisfies it).  Trees containing `sin`, `cos`, `exp`, `ln`,
`pow` or `log` cannot be compiled at all — lowering them panics — so no
agreement statement holds for them.  For the N-D shape the agreement
additionally requires every variable index below `2^28`, because the
emitted load truncates the byte offset `8 * i` to a signed 32-bit value
(see C10). -/
theorem evaluate_compile_agree (fns : TransFns) (t : Expr)
    (hs : t.jit_supported = true) :
    (t.num_variables ≤ 1 →
      ∃ f, t.build_jit_1d fns = some f ∧ ∀ x, t.evaluate fns [x] = some (f x)) ∧
      (t.num_variables ≤ 2 →
        ∃ f, t.build_jit_2d fns = some f ∧
          ∀ x y, t.evaluate fns [x, y] = some (f x y)) ∧
      (t.num_variables ≤ 3 →
        ∃ f, t.build_jit_3d fns = some f ∧
          ∀ x y z, t.evaluate fns [x, y, z] = some (f x y z)) ∧
      (∀ (v : List F64) (mem : Int → F64), t.num_variables ≤ v.length →
        t.num_variables ≤ 2 ^ 28 →
        (∀ i : Nat, i < v.length → v.get? i = some (mem (8 * (i : Int)))) →
        ∃ f, t.build_jit_nd fns = some f ∧ t.evaluate fns v = some (f mem)) :=
  ⟨build_jit_1d_agrees fns t hs, build_jit_2d_agrees fns t hs,
    build_jit_3d_agrees fns t hs,
    fun v mem hlen hbound hmem => build_jit_nd_agrees fns t v mem hs hlen hbound hmem⟩

/-- C1 (witness).  The agreement theorem applied to
`Add(Variable(0), Variable(1))` under the 2-D shape. -/
theorem evaluate_compile_agree_witness :
    ∃ f, Expr.build_jit_2d trivialTransFns (Expr.add (Expr.var 0) (Expr.var 1)) = some f ∧
      ∀ x y, (Expr.add (Expr.var 0) (Expr.var 1)).evaluate trivialTransFns [x, y]
        = some (f x y) :=
  (evaluate_compile_agree trivialTransFns (Expr.add (Expr.var 0) (Expr.var 1))
    rfl).2.1 (by decide)

/-! ### The log combinator and the Log evaluation order -/

/-- C4 (counterexample).  The claim states that `log(a, b)` evaluates to
`ln(a) / ln(b)` (log of `a` to base `b`) within one ulp.  The combinator
places the argument in the first slot of `Log`, but the evaluator computes
`Log(base, inner)` as `inner.log(base) = ln(inner) / ln(base)` — it treats
the *first* slot as the base.  At `a = 0`, `b = 1` (arguments where the
standard fixes `ln` and the division exactly) the code returns
`ln(1) / ln(0) = (+0) / (-∞) = -0.0` while the claimed value is
`ln(0) / ln(1) = (-∞) / (+0) = -∞`; a zero and an infinity cannot agree to
within one ulp. -/
theorem log_operand_order_counterexample :
    (OxphysNumerics.log (Expr.constant (F64.fin 0)) (Expr.constant (F64.fin 1))).evaluate
        ieeeLogFns [] = some F64.negZero ∧
      F64.div (ieeeLogFns.ln (F64.fin 0)) (ieeeLogFns.ln (F64.fin 1)) = F64.inf true ∧
      F64.negZero ≠ F64.inf true ∧
      ¬ F64.ulpAgreePossible F64.negZero (F64.inf true) := by
  refine ⟨rfl, rfl, by decide, ?_⟩
  norm_num [F64.ulpAgreePossible, F64.isFinite, F64.isInf, F64.mag]
  decide

/-- C4 (amended).  The combinator `log(a, b)` takes the argument first and
the base second and builds `Log(a, b)`, but the evaluator interprets the
first slot of `Log` as the base: the tree built by `log(a, b)` evaluates to
`f64::log(eval(b), eval(a)) = ln(eval(b)) / ln(eval(a))` — the logarithm of
`b` to base `a`, the reverse of the claimed orientation. -/
theorem log_combinator_evaluates_reversed (fns : TransFns) (a b : Expr)
    (v : List F64) (x y : F64) (ha : a.evaluate fns v = some x)
    (hb : b.evaluate fns v = some y) :
    (OxphysNumerics.log a b).evaluate fns v = some (fns.log y x) := by
  simp [OxphysNumerics.log, Expr.evaluate, ha, hb]

/-- C4 (witness).  The amended theorem applied to the constants 2 and 3. -/
theorem log_combinator_evaluates_reversed_witness :
    (OxphysNumerics.log (Expr.constant (F64.fin 2)) (Expr.constant (F64.fin 3))).evaluate
        trivialTransFns [] = some (trivialTransFns.log (F64.fin 3) (F64.fin 2)) :=
  log_combinator_evaluates_reversed trivialTransFns (Expr.constant (F64.fin 2))
    (Expr.constant (F64.fin 3)) [] (F64.fin 2) (F64.fin 3) rfl rfl

/-! ### The batch evaluator -/

/-- C7.  The batch evaluator validates the rows up front: with no rows it
returns the empty-input error (the source's `NoVariable` tag), with rows of
differing widths it returns the `LengthMismatch` error carrying all the row
lengths, and in every error case the result is independent of the
expression and of the primitive implementations — no row is evaluated
before the error is reported. -/
theorem evaluate_vec_validates_up_front (fns fns' : TransFns) (t t' : Expr)
    (vars : List (List F64)) :
    (vars = [] →
      Expr.evaluate_vec fns t vars = some (Except.error ExpressionError.noVariable)) ∧
      (∀ vs vss, vars = vs :: vss →
        (∃ vs', vs' ∈ vss ∧ vs'.length ≠ vs.length) →
        Expr.evaluate_vec fns t vars
          = some (Except.error (ExpressionError.lengthMismatch (vars.map List.length)))) ∧
      (∀ e, Expr.evaluate_vec fns t vars = some (Except.error e) →
        Expr.evaluate_vec fns' t' vars = some (Except.error e)) := by
  refine ⟨?_, ?_, ?_⟩
  · rintro rfl; rfl
  · rintro vs vss rfl ⟨vs', hmem, hne⟩
    have key : ∀ (g : TransFns) (u : Expr), Expr.evaluate_vec g u (vs :: vss) =
        if ((vs :: vss).map List.length).any (fun length => length != vs.length)
        then some (Except.error
          (ExpressionError.lengthMismatch ((vs :: vss).map List.length)))
        else ((vs :: vss).mapM fun values => u.evaluate g values).map Except.ok :=
      fun g u => rfl
    have hany : ((vs :: vss).map List.length).any
        (fun length => length != vs.length) = true :=
      List.any_eq_true.mpr ⟨vs'.length,
        List.mem_map_of_mem List.length (List.mem_cons_of_mem vs hmem),
        bne_iff_ne.mpr hne⟩
    rw [key fns t, if_pos hany]
  · intro e he
    cases vars with
    | nil => exact he
    | cons vs vss =>
        have key : ∀ (g : TransFns) (u : Expr), Expr.evaluate_vec g u (vs :: vss) =
            if ((vs :: vss).map List.length).any (fun length => length != vs.length)
            then some (Except.error
              (ExpressionError.lengthMismatch ((vs :: vss).map List.length)))
            else ((vs :: vss).mapM fun values => u.evaluate g values).map Except.ok :=
          fun g u => rfl
        rw [key fns t] at he
        rw [key fns' t']
        by_cases hany : ((vs :: vss).map List.length).any
            (fun length => length != vs.length) = true
        · rw [if_pos hany] at he
          rw [if_pos hany]
          exact he
        · rw [if_neg hany] at he
          cases ho : (vs :: vss).mapM (fun values => t.evaluate fns values) with
          | none => rw [ho] at he; simp at he
          | some l => rw [ho] at he; simp at he

/-- C7 (witness).  The theorem applied to the empty batch and to a batch of
mismatched rows (note the expression references `Variable(99)`, which could
never be evaluated on these rows — the error is reported without touching
it). -/
theorem evaluate_vec_validates_up_front_witness :
    Expr.evaluate_vec trivialTransFns (Expr.var 0) []
        = some (Except.error ExpressionError.noVariable) ∧
      Expr.evaluate_vec trivialTransFns (Expr.var 99)
          [[F64.fin 1], [F64.fin 1, F64.fin 2]]
        = some (Except.error (ExpressionError.lengthMismatch [1, 2])) := by
  constructor
  · exact (evaluate_vec_validates_up_front trivialTransFns trivialTransFns
      (Expr.var 0) (Expr.var 0) []).1 rfl
  · have h := (evaluate_vec_validates_up_front trivialTransFns trivialTransFns
      (Expr.var 99) (Expr.var 99) [[F64.fin 1], [F64.fin 1, F64.fin 2]]).2.1
      [F64.fin 1] [[F64.fin 1, F64.fin 2]] rfl
      ⟨[F64.fin 1, F64.fin 2], by simp, by decide⟩
    simpa using h

/-- C8 (counterexample).  The claim states that the batch evaluator on
`Add(Variable(0), Variable(1))` with rows `[1, 2]` and `[3, 4]` returns
`[3, 5]`.  Each row is one evaluation point, so the second row gives
`3 + 4 = 7`, not `5`. -/
theorem evaluate_vec_example_not_three_five :
    ¬ (Expr.evaluate_vec trivialTransFns (Expr.add (Expr.var 0) (Expr.var 1))
        [[F64.fin 1, F64.fin 2], [F64.fin 3, F64.fin 4]]
      = some (Except.ok [F64.fin 3, F64.fin 5])) := by
  norm_num [Expr.evaluate_vec, Expr.evaluate, F64.add, List.mapM, List.mapM.loop]

/-- C8 (amended).  The batch evaluator on `Add(Variable(0), Variable(1))`
with rows `[1, 2]` and `[3, 4]` returns `[3, 7]` (`1 + 2` and `3 + 4`; the
sums are exact in binary64). -/
theorem evaluate_vec_example_three_seven :
    Expr.evaluate_vec trivialTransFns (Expr.add (Expr.var 0) (Expr.var 1))
        [[F64.fin 1, F64.fin 2], [F64.fin 3, F64.fin 4]]
      = some (Except.ok [F64.fin 3, F64.fin 7]) := by
  norm_num [Expr.evaluate_vec, Expr.evaluate, F64.add, List.mapM, List.mapM.loop]

/-! ### Division by zero -/

/-- Dividing any binary64 value by a zero yields NaN or a signed infinity,
by the IEEE-754 rules implemented in `F64.div`. -/
theorem div_by_zero_cases (x z : F64) (hz : z.isZero = true) :
    F64.div x z = F64.nan ∨ F64.div x z = F64.inf false ∨
      F64.div x z = F64.inf true := by
  cases z with
  | nan => simp [F64.isZero] at hz
  | inf b => simp [F64.isZero] at hz
  | negZero =>
      cases x with
      | nan => left; rfl
      | inf b =>
          cases b with
          | false => right; right; rfl
          | true => right; left; rfl
      | negZero => left; rfl
      | fin q =>
          by_cases hq : q = 0
          · left; norm_num [F64.div, hq]
          · by_cases hq' : q < 0
            · right; left; norm_num [F64.div, hq, hq']
            · right; right; norm_num [F64.div, hq, hq']
  | fin r =>
      have hr : r = 0 := by simpa [F64.isZero] using hz
      subst hr
      cases x with
      | nan => left; rfl
      | inf b =>
          cases b with
          | false => right; left; norm_num [F64.div]
          | true => right; right; norm_num [F64.div]
      | negZero => left; norm_num [F64.div]
      | fin q =>
          by_cases hq : q = 0
          · left; norm_num [F64.div, hq]
          · by_cases hq' : q < 0
            · right; right; norm_num [F64.div, hq, hq']
            · right; left; norm_num [F64.div, hq, hq']

/-- C9.  When the denominator of `Frac(a, b)` evaluates to a zero and the
variable vector is long enough, evaluation succeeds (no error value, no
panic) and the result is NaN, `+∞` or `-∞` exactly as IEEE-754 division
dictates. -/
theorem div_by_zero_ieee_no_failure (fns : TransFns) (a b : Expr)
    (v : List F64) (z : F64) (hb : b.evaluate fns v = some z)
    (hz : z.isZero = true) (hlen : (Expr.frac a b).num_variables ≤ v.length) :
    ∃ r, (Expr.frac a b).evaluate fns v = some r ∧
      (r = F64.nan ∨ r = F64.inf false ∨ r = F64.inf true) := by
  have hla : a.num_variables ≤ v.length := le_trans (Nat.le_max_left _ _) hlen
  obtain ⟨x, hx⟩ := Option.isSome_iff_exists.mp (evaluate_isSome_of_le fns a v hla)
  refine ⟨F64.div x z, ?_, div_by_zero_cases x z hz⟩
  simp [Expr.evaluate, hx, hb]

/-- C9 (witness).  The theorem applied to `Frac(3, 0)` (the result is
`+∞`). -/
theorem div_by_zero_ieee_no_failure_witness :
    ∃ r, (Expr.frac (Expr.constant (F64.fin 3)) (Expr.constant (F64.fin 0))).evaluate
        trivialTransFns [] = some r ∧
      (r = F64.nan ∨ r = F64.inf false ∨ r = F64.inf true) :=
  div_by_zero_ieee_no_failure trivialTransFns (Expr.constant (F64.fin 3))
    (Expr.constant (F64.fin 0)) [] (F64.fin 0) rfl (by decide) (by decide)

/-! ### The N-D load offset -/

/-- C10.  The N-D lowering of `Variable(i)` emits a load at the byte offset
`(i * 8) as i32` — the product truncated to a signed 32-bit integer.  The
truncated offset equals the intended `8 * i` exactly when `i < 2^28`; for
every `i ≥ 2^28` the emitted load reads a wrapped offset (negative already
at `i = 2^28`, where the offset is `-2^31`) instead of `base_ptr + 8*i`. -/
theorem nd_variable_offset_truncation :
    (∀ (fns : TransFns) (idx : Nat),
        Expr.build_jit_nd fns (Expr.var idx) = some fun mem => mem (arg_offset idx)) ∧
      (∀ idx : Nat, idx < 2 ^ 28 → arg_offset idx = 8 * idx) ∧
      (∀ idx : Nat, 2 ^ 28 ≤ idx → arg_offset idx ≠ 8 * idx) ∧
      arg_offset (2 ^ 28) = -(2 ^ 31) := by
  refine ⟨fun fns idx => rfl, arg_offset_of_lt, arg_offset_ne_of_ge, ?_⟩
  norm_num [arg_offset, toI32]

/-- C10 (witness).  The offset theorem applied at the in-range index 5 and
at the first out-of-range index `2^28`. -/
theorem nd_variable_offset_truncation_witness :
    arg_offset 5 = 8 * ((5 : Nat) : Int) ∧
      arg_offset (2 ^ 28) ≠ 8 * ((2 ^ 28 : Nat) : Int) :=
  ⟨nd_variable_offset_truncation.2.1 5 (by norm_num),
    nd_variable_offset_truncation.2.2.1 (2 ^ 28) (le_refl _)⟩

end OxphysNumerics